import Mathlib

/-!
Verification of the Streamflix streaming relay proxy (src/server.js).

The development shallowly embeds the `/api/proxy` request handler of
server.js: its URL parsing and resolution (a model of the WHATWG URL
constructor used by the source for the http/https cases it exercises),
the response classifier `isM3U8`, the HLS manifest rewriter built on the
regex /^(?!#)(?!\s)(.+)$/gm, the header-forwarding logic, and the
bounded redirect follower `doRequest`. Event-handler registrations on
the upstream request object are embedded as a reaction function over an
event type. Bodies are modelled as strings of characters standing for
bytes; header maps as association lists with lookup semantics.
-/

namespace Streamflix

/-- jsIsWhitespace models the character class matched by the JavaScript
regex \s and removed by String.prototype.trim (WhiteSpace plus
LineTerminator). -/
def jsIsWhitespace (c : Char) : Bool :=
  c == ' ' || c == '\t' || c == '\n' || c == '\r' ||
  c == Char.ofNat 0x0b || c == Char.ofNat 0x0c ||
  c == Char.ofNat 0xa0 || c == Char.ofNat 0x1680 ||
  (0x2000 ≤ c.toNat && c.toNat ≤ 0x200a) ||
  c == Char.ofNat 0x2028 || c == Char.ofNat 0x2029 ||
  c == Char.ofNat 0x202f || c == Char.ofNat 0x205f ||
  c == Char.ofNat 0x3000 || c == Char.ofNat 0xfeff

/-- isLineTerminator models the ECMAScript LineTerminator set, the
characters that `.` in a JavaScript regex does not match and that the
multiline anchors ^ and $ break lines at. -/
def isLineTerminator (c : Char) : Bool :=
  c == '\n' || c == '\r' || c == Char.ofNat 0x2028 || c == Char.ofNat 0x2029

/-- jsTrim models JavaScript String.prototype.trim. -/
def jsTrim (s : String) : String :=
  String.mk (((s.data.dropWhile jsIsWhitespace).reverse.dropWhile jsIsWhitespace).reverse)

/-- listIncludes pat l decides whether pat occurs as a contiguous
sublist of l; used to model JavaScript String.prototype.includes. -/
def listIncludes (pat : List Char) : List Char → Bool
  | [] => pat.isPrefixOf ([] : List Char)
  | c :: t => pat.isPrefixOf (c :: t) || listIncludes pat t

/-- strIncludes models JavaScript String.prototype.includes. -/
def strIncludes (s pat : String) : Bool := listIncludes pat.data s.data

/-- jsStartsWith models JavaScript String.prototype.startsWith. -/
def jsStartsWith (s pat : String) : Bool := pat.data.isPrefixOf s.data

/-- jsEndsWith models JavaScript String.prototype.endsWith. -/
def jsEndsWith (s pat : String) : Bool := pat.data.isSuffixOf s.data

/-- hexDigitChar gives the uppercase hexadecimal digit for n < 16. -/
def hexDigitChar (n : Nat) : Char :=
  if n < 10 then Char.ofNat (48 + n) else Char.ofNat (55 + n)

/-- utf8Bytes lists the UTF-8 encoding of a character as byte values. -/
def utf8Bytes (c : Char) : List Nat :=
  if c.toNat < 0x80 then [c.toNat]
  else if c.toNat < 0x800 then [0xc0 + c.toNat / 64, 0x80 + c.toNat % 64]
  else if c.toNat < 0x10000 then
    [0xe0 + c.toNat / 4096, 0x80 + c.toNat / 64 % 64, 0x80 + c.toNat % 64]
  else
    [0xf0 + c.toNat / 262144, 0x80 + c.toNat / 4096 % 64,
     0x80 + c.toNat / 64 % 64, 0x80 + c.toNat % 64]

/-- isUnreservedURIChar decides whether encodeURIComponent leaves the
character unescaped (ECMAScript: alphanumerics and - _ . ! ~ * ( )
together with the apostrophe, code point 39). -/
def isUnreservedURIChar (c : Char) : Bool :=
  c.isAlphanum || c == '-' || c == '_' || c == '.' || c == '!' ||
  c == '~' || c == '*' || c == Char.ofNat 39 || c == '(' || c == ')'

/-- percentEncodeChar percent-encodes one character byte by byte with
uppercase hexadecimal digits. -/
def percentEncodeChar (c : Char) : List Char :=
  (utf8Bytes c).foldr (fun b acc => '%' :: hexDigitChar (b / 16) :: hexDigitChar (b % 16) :: acc) []

/-- encodeURIComponent models the JavaScript global of the same name. -/
def encodeURIComponent (s : String) : String :=
  String.mk (s.data.foldr
    (fun c acc => if isUnreservedURIChar c then c :: acc else percentEncodeChar c ++ acc) [])

/-- stripControls models the WHATWG URL parser preprocessing: remove
ASCII tab and newline everywhere and trim C0 controls and spaces from
both ends of the input. -/
def stripControls (s : String) : String :=
  let l := s.data.filter (fun c => !(c == '\t' || c == '\n' || c == '\r'))
  String.mk (((l.dropWhile (fun c => c.toNat ≤ 0x20)).reverse.dropWhile
    (fun c => c.toNat ≤ 0x20)).reverse)

/-- isSchemeChar decides membership in the URI scheme character set. -/
def isSchemeChar (c : Char) : Bool := c.isAlphanum || c == '+' || c == '-' || c == '.'

/-- schemeSplitAux scans scheme characters until a colon. -/
def schemeSplitAux (acc : List Char) : List Char → Option (List Char × List Char)
  | [] => none
  | c :: t =>
    if c == ':' then some (acc.reverse, t)
    else if isSchemeChar c then schemeSplitAux (c :: acc) t
    else none

/-- schemeSplit splits a URI into scheme and remainder when the input
begins with a valid scheme followed by a colon. -/
def schemeSplit (l : List Char) : Option (List Char × List Char) :=
  match l with
  | [] => none
  | c :: _ => if c.isAlpha then schemeSplitAux [] l else none

/-- URLRec is the parsed form of an http or https URL in the model of
the WHATWG URL class used by server.js. -/
structure URLRec where
  scheme : String
  host : String
  port : Option Nat
  path : String
  query : Option String
  frag : Option String
deriving DecidableEq

/-- URLRec.toStr serializes a parsed URL, modelling URL.prototype.toString. -/
def URLRec.toStr (u : URLRec) : String :=
  u.scheme ++ "://" ++ u.host ++
  (match u.port with | some p => ":" ++ toString p | none => "") ++
  u.path ++
  (match u.query with | some q => "?" ++ q | none => "") ++
  (match u.frag with | some f => "#" ++ f | none => "")

/-- inC0EncodeSet is the WHATWG C0-control percent-encode set: C0
controls and every code point above tilde. -/
def inC0EncodeSet (c : Char) : Bool := c.toNat < 0x20 || c.toNat > 0x7e

/-- inFragmentEncodeSet is the WHATWG fragment percent-encode set. -/
def inFragmentEncodeSet (c : Char) : Bool :=
  inC0EncodeSet c || c == ' ' || c == Char.ofNat 34 || c == '<' || c == '>' ||
  c == Char.ofNat 0x60

/-- inSpecialQueryEncodeSet is the WHATWG query percent-encode set for
special URLs (the plain query set plus the apostrophe). -/
def inSpecialQueryEncodeSet (c : Char) : Bool :=
  inC0EncodeSet c || c == ' ' || c == Char.ofNat 34 || c == '#' || c == '<' ||
  c == '>' || c == Char.ofNat 39

/-- inPathEncodeSet is the WHATWG path percent-encode set: the plain
query set plus question mark, backtick and both braces. -/
def inPathEncodeSet (c : Char) : Bool :=
  inC0EncodeSet c || c == ' ' || c == Char.ofNat 34 || c == '#' || c == '<' ||
  c == '>' || c == '?' || c == Char.ofNat 0x60 || c == Char.ofNat 0x7b ||
  c == Char.ofNat 0x7d

/-- percentEncodeWith percent-encodes exactly the characters of a
given encode set, as the WHATWG parser does while writing a URL
component; the percent sign itself is in no set, so already-encoded
material passes through untouched and the map is idempotent. -/
def percentEncodeWith (f : Char → Bool) (s : String) : String :=
  String.mk (s.data.foldr
    (fun c acc => if f c then percentEncodeChar c ++ acc else c :: acc) [])

/-- isSingleDotSeg recognizes a WHATWG single-dot path segment: a dot
or its percent-encoding, case-insensitively. -/
def isSingleDotSeg (s : String) : Bool :=
  s == "." || String.mk (s.data.map Char.toLower) == "%2e"

/-- isDoubleDotSeg recognizes a WHATWG double-dot path segment: two
dots, each written plainly or percent-encoded, case-insensitively. -/
def isDoubleDotSeg (s : String) : Bool :=
  let l := String.mk (s.data.map Char.toLower)
  l == ".." || l == ".%2e" || l == "%2e." || l == "%2e%2e"

/-- dotSegsAux processes path segments, resolving single and double dot
segments (including their percent-encoded spellings, as the WHATWG
path state does); a trailing dot segment leaves a trailing slash. -/
def dotSegsAux (out : List String) : List String → List String
  | [] => out
  | [s] =>
    if isSingleDotSeg s then out ++ [""]
    else if isDoubleDotSeg s then out.dropLast ++ [""]
    else out ++ [s]
  | s :: rest =>
    if isSingleDotSeg s then dotSegsAux out rest
    else if isDoubleDotSeg s then dotSegsAux out.dropLast rest
    else dotSegsAux (out ++ [s]) rest

/-- splitOnChar splits a character list at every occurrence of the
separator; the separator occurrences themselves are dropped. -/
def splitOnChar (sep : Char) : List Char → List (List Char)
  | [] => [[]]
  | c :: t =>
    if c == sep then [] :: splitOnChar sep t
    else
      match splitOnChar sep t with
      | [] => [[c]]
      | l :: ls => (c :: l) :: ls

/-- joinWithSlash interleaves segments with single slashes. -/
def joinWithSlash : List String → String
  | [] => ""
  | [s] => s
  | s :: rest => s ++ "/" ++ joinWithSlash rest

/-- removeDotSegments normalizes a path that starts with a slash. -/
def removeDotSegments (p : String) : String :=
  "/" ++ joinWithSlash (dotSegsAux [] (((splitOnChar '/' p.data).map String.mk).drop 1))

/-- isAuthorityEnd recognizes the characters that end the authority
component of a special URL. -/
def isAuthorityEnd (c : Char) : Bool := c == '/' || c == '\\' || c == '?' || c == '#'

/-- afterLastAt drops a userinfo part, keeping the characters after the
last at sign. -/
def afterLastAt (l : List Char) : List Char :=
  if l.contains '@' then (l.reverse.takeWhile (fun c => !(c == '@'))).reverse else l

/-- parsePort reads a port: empty means absent, digits give a number,
anything else is a parse failure; a value above 65535 is a failure as
well, as in the WHATWG port state. -/
def parsePort (l : List Char) : Option (Option Nat) :=
  if l == [] then some none
  else if l.all Char.isDigit then
    let v := l.foldl (fun n c => n * 10 + (c.toNat - 48)) 0
    if v ≤ 65535 then some (some v) else none
  else none

/-- isForbiddenHostChar recognizes the characters the WHATWG parser
rejects in the host of a special URL (forbidden domain code points:
controls, space, delete, the listed ASCII delimiters and the percent
sign) together with all non-ASCII characters, since IDNA conversion of
internationalized hosts is outside this model. -/
def isForbiddenHostChar (c : Char) : Bool :=
  c.toNat ≤ 0x20 || c.toNat ≥ 0x7f || c == '#' || c == '%' || c == '/' ||
  c == ':' || c == '<' || c == '>' || c == '?' || c == '@' || c == '[' ||
  c == '\\' || c == ']' || c == '^' || c == '|'

/-- splitAtFirst splits a character list at the first occurrence of a
separator, returning none when the separator is absent. -/
def splitAtFirst (sep : Char) : List Char → List Char × Option (List Char)
  | [] => ([], none)
  | c :: t =>
    if c == sep then ([], some t)
    else
      let p := splitAtFirst sep t
      (c :: p.1, p.2)

/-- parsePathQueryFrag splits the part after the authority into path,
query and fragment, treating backslash as slash as WHATWG does for
special schemes, normalizes dot segments in the path, and
percent-encodes each component with its WHATWG encode set. -/
def parsePathQueryFrag (rest : List Char) : String × Option String × Option String :=
  let rest := rest.map (fun c => if c == '\\' then '/' else c)
  let pf := splitAtFirst '#' rest
  let pq := splitAtFirst '?' pf.1
  let path := if pq.1 == [] then "/"
    else percentEncodeWith inPathEncodeSet (removeDotSegments (String.mk pq.1))
  (path,
   pq.2.map (fun q => percentEncodeWith inSpecialQueryEncodeSet (String.mk q)),
   pf.2.map (fun f => percentEncodeWith inFragmentEncodeSet (String.mk f)))

/-- defaultPort gives the default port of a special scheme. -/
def defaultPort (scheme : String) : Nat := if scheme == "https" then 443 else 80

/-- parseAuthority parses host, optional port, path, query and fragment
from the characters following the scheme of a special URL; an empty
host, a host containing a forbidden host character, or a malformed or
out-of-range port is a parse failure (the URL constructor throws
there), the host is lowercased and a default port is dropped.
Bracketed IPv6 literals and percent-encoded or internationalized
(IDNA) hosts are outside the model and likewise map to none. -/
def parseAuthority (scheme : String) (cs : List Char) : Option URLRec :=
  let hostPart := cs.takeWhile (fun c => !(isAuthorityEnd c))
  let rest := cs.drop hostPart.length
  let hp := afterLastAt hostPart
  let rev := hp.reverse
  let portRev := rev.takeWhile (fun c => !(c == ':'))
  let hasColon := portRev.length < hp.length
  let hostC := if hasColon then (rev.drop (portRev.length + 1)).reverse else hp
  if hostC == [] || hostC.any isForbiddenHostChar then none
  else
    match (if hasColon then parsePort portRev.reverse else some none) with
    | none => none
    | some port0 =>
      let port := match port0 with
        | some p => if p == defaultPort scheme then none else some p
        | none => none
      let pqf := parsePathQueryFrag rest
      some ⟨scheme, String.mk (hostC.map Char.toLower), port, pqf.1, pqf.2.1, pqf.2.2⟩

/-- parseAbsoluteURL models new URL(s) of the WHATWG URL class for the
http and https schemes used by server.js; for a special scheme the
parser skips any run of slashes after the colon before the authority.
Inputs with other schemes are outside the model and map to none (the
server answers those with its invalid-URL branch, matching the
synchronous protocol error node raises for them). -/
def parseAbsoluteURL (s : String) : Option URLRec :=
  let cs := (stripControls s).data
  match schemeSplit cs with
  | none => none
  | some (sch, rest) =>
    let schl := String.mk (sch.map Char.toLower)
    if schl == "http" || schl == "https" then
      parseAuthority schl (rest.dropWhile (fun c => c == '/' || c == '\\'))
    else none

/-- dirOf keeps a path up to and including its last slash. -/
def dirOf (p : String) : String :=
  String.mk ((p.data.reverse.dropWhile (fun c => !(c == '/'))).reverse)

/-- resolveRelative resolves a schemeless reference against a parsed
base as the WHATWG relative state does: a protocol-relative, absolute
path, query, fragment or relative path reference, with backslash
treated as slash, dot-segment normalization, and each written
component percent-encoded with its WHATWG encode set. A none result
models the constructor throwing, as it does for a protocol-relative
reference with an empty or invalid host. -/
def resolveRelative (b : URLRec) (cs0 : List Char) : Option String :=
  let cs := cs0.map (fun c => if c == '\\' then '/' else c)
  match cs with
  | [] => some { b with frag := none }.toStr
  | c :: t =>
    if c == '/' && t.head? == some '/' then
      match parseAuthority b.scheme (cs.dropWhile (fun x => x == '/')) with
      | some u => some u.toStr
      | none => none
    else if c == '/' then
      let pqf := parsePathQueryFrag cs
      some { b with path := pqf.1, query := pqf.2.1, frag := pqf.2.2 }.toStr
    else if c == '?' then
      let qf := splitAtFirst '#' t
      some { b with
               query := some (percentEncodeWith inSpecialQueryEncodeSet (String.mk qf.1)),
               frag := qf.2.map (fun f =>
                 percentEncodeWith inFragmentEncodeSet (String.mk f)) }.toStr
    else if c == '#' then
      some { b with frag := some (percentEncodeWith inFragmentEncodeSet (String.mk t)) }.toStr
    else
      let pf := splitAtFirst '#' cs
      let pq := splitAtFirst '?' pf.1
      let merged := dirOf b.path ++ String.mk pq.1
      some { b with
               path := percentEncodeWith inPathEncodeSet (removeDotSegments merged),
               query := pq.2.map (fun q =>
                 percentEncodeWith inSpecialQueryEncodeSet (String.mk q)),
               frag := pf.2.map (fun f =>
                 percentEncodeWith inFragmentEncodeSet (String.mk f)) }.toStr

/-- twoForwardSlashes checks whether the characters after a scheme
colon begin with the two forward slashes that select the authority
path in the WHATWG special relative-or-authority state. -/
def twoForwardSlashes (cs : List Char) : Bool :=
  match cs with
  | a :: b :: _ => a == '/' && b == '/'
  | _ => false

/-- resolveURL models new URL(input, base).toString() as used by
server.js. An input carrying the http or https scheme is parsed
absolutely, except that, as in the WHATWG special relative-or-authority
state, an input whose scheme equals the scheme of a valid base and
whose remainder does not begin with two slashes is resolved as a
relative reference against the base. An input with any other scheme is
treated as an opaque URL: the constructor succeeds and serializes it
with the scheme lowercased and the remainder kept (C0 controls and
non-ASCII percent-encoded); this is exact for genuinely opaque schemes
such as data, and a documented simplification for the remaining
special schemes (ftp, file, ws, wss), whose authority normalization is
outside the model. A schemeless input is resolved against the base by
resolveRelative. A none result models the constructor throwing. -/
def resolveURL (input base : String) : Option String :=
  let i := stripControls input
  match schemeSplit i.data with
  | some (sch, rest) =>
    let schl := String.mk (sch.map Char.toLower)
    if schl == "http" || schl == "https" then
      match parseAbsoluteURL base with
      | some b =>
        if schl == b.scheme && !(twoForwardSlashes rest) then resolveRelative b rest
        else
          match parseAbsoluteURL i with
          | some u => some u.toStr
          | none => none
      | none =>
        match parseAbsoluteURL i with
        | some u => some u.toStr
        | none => none
    else
      some (schl ++ ":" ++ percentEncodeWith inC0EncodeSet (String.mk rest))
  | none =>
    match parseAbsoluteURL base with
    | none => none
    | some b => resolveRelative b i.data

/-- UpstreamResponse models one upstream HTTP response as seen by the
proxy: status code, headers (lowercase names, as node delivers them)
and the full body, a character string standing for the byte stream. -/
structure UpstreamResponse where
  statusCode : Nat
  headers : List (String × String)
  body : String
deriving DecidableEq

/-- ClientResponse models what the handler sends to the client: status,
the headers the handler itself sets, and the body. -/
structure ClientResponse where
  status : Nat
  headers : List (String × String)
  body : String
deriving DecidableEq

/-- headerGet looks a header up by name. -/
def headerGet (hdrs : List (String × String)) (k : String) : Option String :=
  hdrs.lookup k

/-- setHeader models res.setHeader: the new pair shadows any earlier
binding of the same name under headerGet. -/
def setHeader (hdrs : List (String × String)) (k v : String) : List (String × String) :=
  (k, v) :: hdrs

/-- forwardHeaderList is the forwardHeaders array of server.js line 153. -/
def forwardHeaderList : List String :=
  ["content-type", "content-length", "content-range", "accept-ranges",
   "last-modified", "etag"]

/-- fwdStep is the forEach body of server.js lines 158 to 160: the
upstream header is forwarded when present and truthy; an empty string
value is falsy in JavaScript and is not forwarded. -/
def fwdStep (proxyRes : UpstreamResponse) (acc : List (String × String))
    (h : String) : List (String × String) :=
  match headerGet proxyRes.headers h with
  | some v => if v == "" then acc else setHeader acc h v
  | none => acc

/-- respHeaders builds the client headers of server.js lines 158 to 163:
each listed upstream header is forwarded when present, then the CORS
and cache-control headers are set. -/
def respHeaders (proxyRes : UpstreamResponse) : List (String × String) :=
  setHeader (setHeader (forwardHeaderList.foldl (fwdStep proxyRes) [])
      "access-control-allow-origin" "*")
    "cache-control" "no-cache, no-store, must-revalidate"

/-- isM3U8 is the classifier of server.js line 166: the content type
contains mpegurl or m3u8, or the current URL contains .m3u8. -/
def isM3U8 (contentType currentUrl : String) : Bool :=
  strIncludes contentType "mpegurl" || strIncludes contentType "m3u8" ||
  strIncludes currentUrl ".m3u8"

/-- baseUrlOf is server.js line 177: the substring of currentUrl up to
and including its last slash (empty when the URL has no slash, as
lastIndexOf then returns minus one). -/
def baseUrlOf (u : String) : String :=
  String.mk ((u.data.reverse.dropWhile (fun c => !(c == '/'))).reverse)

/-- rewriteLine is the replacement callback of server.js lines 178 to
183: trim the matched line, resolve it against the base URL unless it
starts with http (keeping it unresolved when the URL constructor
throws), and wrap it as a relay URL with the result percent-encoded. -/
def rewriteLine (baseUrl matched : String) : String :=
  let line := jsTrim matched
  let line := if jsStartsWith line "http" then line else (resolveURL line baseUrl).getD line
  "/api/proxy?url=" ++ encodeURIComponent line

/-- lineGuard decides whether a line is matched by the rewrite regex
of server.js line 178, anchored per line: nonempty, first character
neither the hash sign nor regex whitespace. -/
def lineGuard (l : List Char) : Bool :=
  match l with
  | [] => false
  | c :: _ => !(c == '#') && !(jsIsWhitespace c)

/-- processLine applies the regex replacement to one terminator-free
line: matched lines are replaced by rewriteLine, others pass through. -/
def processLine (baseUrl : String) (l : List Char) : List Char :=
  if lineGuard l then (rewriteLine baseUrl (String.mk l)).data else l

/-- rewriteScan walks the manifest text, splitting it at ECMAScript
line terminators and applying processLine to each maximal
terminator-free run, exactly as text.replace with the /gm regex of
server.js line 178 does; cur is the prefix of the current line read so
far. -/
def rewriteScan (baseUrl : String) (cur : List Char) : List Char → List Char
  | [] => processLine baseUrl cur
  | c :: t =>
    if isLineTerminator c then processLine baseUrl cur ++ c :: rewriteScan baseUrl [] t
    else rewriteScan baseUrl (cur ++ [c]) t

/-- rewriteManifest is the manifest rewrite of server.js line 178. -/
def rewriteManifest (text baseUrl : String) : String :=
  String.mk (rewriteScan baseUrl [] text.data)

/-- owsTrim drops the optional whitespace (space and tab) the
content-type grammar allows around tokens. -/
def owsTrim (l : List Char) : List Char :=
  ((l.dropWhile (fun c => c == ' ' || c == '\t')).reverse.dropWhile
    (fun c => c == ' ' || c == '\t')).reverse

/-- charListLe is a lexicographic code-point comparison, matching the
default JavaScript array sort on the ASCII parameter names involved. -/
def charListLe : List Char → List Char → Bool
  | [], _ => true
  | _ :: _, [] => false
  | a :: as, b :: bs =>
    if a.toNat < b.toNat then true
    else if b.toNat < a.toNat then false
    else charListLe as bs

/-- paramUpsert replaces the value of an existing parameter key or
appends the pair, the JavaScript object-assignment semantics. -/
def paramUpsert (ps : List (String × String)) (k v : String) : List (String × String) :=
  if (ps.lookup k).isSome then ps.map (fun p => if p.1 == k then (k, v) else p)
  else ps ++ [(k, v)]

/-- insertSorted inserts a parameter in key order. -/
def insertSorted (kv : String × String) : List (String × String) → List (String × String)
  | [] => [kv]
  | p :: rest =>
    if charListLe kv.1.data p.1.data then kv :: p :: rest else p :: insertSorted kv rest

/-- sortParams sorts parameters by key, as the content-type serializer
(Object.keys().sort()) does. -/
def sortParams (ps : List (String × String)) : List (String × String) :=
  ps.foldr insertSorted []

/-- parseMediaParams reads the semicolon-separated parameters of a
media type into key-value pairs with lowercased keys, later
assignments to the same key winning. -/
def parseMediaParams (parts : List (List Char)) : List (String × String) :=
  parts.foldl
    (fun acc p =>
      let q := splitAtFirst '=' (owsTrim p)
      let key := String.mk ((owsTrim q.1).map Char.toLower)
      let value := match q.2 with | some v => String.mk (owsTrim v) | none => ""
      if key == "" then acc else paramUpsert acc key value) []

/-- setCharsetUtf8 models what the express res.send path does to a
string response with a Content-Type header set: utils.setCharset
parses the type, forces the charset parameter to utf-8 and
re-serializes, which lowercases the type and the parameter names and
emits the parameters sorted by name. Parameter value quoting and the
exception the express helper raises on syntactically invalid media
types are outside the model. -/
def setCharsetUtf8 (t : String) : String :=
  match splitOnChar ';' t.data with
  | [] => t
  | ty :: rest =>
    let tyS := String.mk ((owsTrim ty).map Char.toLower)
    let ps := sortParams (paramUpsert (parseMediaParams rest) "charset" "utf-8")
    ps.foldl (fun acc kv => acc ++ "; " ++ kv.1 ++ "=" ++ kv.2) tyS

/-- resSendTypeStep is the Content-Type step of express res.send for a
string body: when a Content-Type header is set, replace it with the
charset-reflected form; when none is set, res.send first defaults the
type to html and the same reflection yields text/html with the utf-8
charset. -/
def resSendTypeStep (hdrs : List (String × String)) : List (String × String) :=
  match headerGet hdrs "content-type" with
  | some t => setHeader hdrs "content-type" (setCharsetUtf8 t)
  | none => setHeader hdrs "content-type" "text/html; charset=utf-8"

/-- respond models the non-redirect tail of the proxy response handler,
server.js lines 150 to 198: status propagation (statusCode or 200),
header forwarding, then either the buffered manifest path or the
binary streaming path. On the rewrite path the body goes out through
express res.send, which reflects charset=utf-8 into the Content-Type
header that was forwarded (or sets text/html with that charset when
none was); the raw-passthrough branch uses res.write and res.end and
the binary branch pipes, so neither touches the forwarded headers.
The entity tag res.send may generate when no etag header was forwarded
and its conditional-request (304) handling depend on state outside the
model and are not modelled. -/
def respond (currentUrl : String) (proxyRes : UpstreamResponse) : ClientResponse :=
  let status := if proxyRes.statusCode == 0 then 200 else proxyRes.statusCode
  let hdrs := respHeaders proxyRes
  let contentType := (headerGet proxyRes.headers "content-type").getD ""
  if isM3U8 contentType currentUrl then
    if jsStartsWith (jsTrim proxyRes.body) "#EXTM3U" then
      let rewritten := rewriteManifest proxyRes.body (baseUrlOf currentUrl)
      let h1 := setHeader hdrs "content-length" (toString rewritten.utf8ByteSize)
      ⟨status, resSendTypeStep h1, rewritten⟩
    else ⟨status, hdrs, proxyRes.body⟩
  else ⟨status, hdrs, proxyRes.body⟩

/-- redirectStatuses is the redirect status list of server.js line 141. -/
def redirectStatuses : List Nat := [301, 302, 303, 307, 308]

/-- tooManyResp is the hop-limit response of server.js line 111. -/
def tooManyResp : ClientResponse := ⟨502, [], "Too many redirects"⟩

/-- invalidResp is the catch response of server.js line 218, sent when
constructing or requesting the target URL throws synchronously. -/
def invalidResp : ClientResponse := ⟨400, [], "Invalid URL"⟩

/-- doRequestFuel is the body of doRequest (server.js lines 109 to
220) with a structural fuel argument so that the kernel can evaluate
it; doRequest ties the fuel to the redirect counter, and the guard
redirectCount greater than 5 keeps the two in step (fuel zero implies
the guard fires, see doRequest_eq). Each step: stop at the hop limit
with 502, answer 400 when the target URL does not parse as http(s),
otherwise fetch; a response whose status is in redirectStatuses and
which carries a truthy (non-empty) location header is followed
(location used verbatim when it starts with http, else resolved
against the current URL, kept unresolved if resolution fails) and
never relayed; anything else is passed to respond. -/
def doRequestFuel (up : String → UpstreamResponse) :
    Nat → String → Nat → ClientResponse
  | 0, _, _ => tooManyResp
  | fuel + 1, currentUrl, redirectCount =>
    if redirectCount > 5 then tooManyResp
    else
      match parseAbsoluteURL currentUrl with
      | none => invalidResp
      | some _ =>
        let proxyRes := up currentUrl
        if redirectStatuses.contains proxyRes.statusCode then
          match headerGet proxyRes.headers "location" with
          | some loc =>
            if loc == "" then respond currentUrl proxyRes
            else
              let newLocation :=
                if jsStartsWith loc "http" then loc else (resolveURL loc currentUrl).getD loc
              doRequestFuel up fuel newLocation (redirectCount + 1)
          | none => respond currentUrl proxyRes
        else respond currentUrl proxyRes

/-- doRequest is the recursive request function of server.js line 109,
entered by the handler as doRequest url 0. -/
def doRequest (up : String → UpstreamResponse) (currentUrl : String)
    (redirectCount : Nat) : ClientResponse :=
  doRequestFuel up (6 - redirectCount) currentUrl redirectCount

/-- ProxyEvent lists the events the in-flight upstream request can
emit that are relevant to the handler: an error with a code, the
socket-assigned event, and the socket timeout event node fires when
the agent timeout of server.js line 93 elapses. -/
inductive ProxyEvent where
  | errorEvent (code : String)
  | socketEvent
  | timeoutEvent
deriving DecidableEq

/-- HandlerAction is the client-visible reaction of an event handler:
answer the client, start a new upstream fetch, or do nothing. -/
inductive HandlerAction where
  | respondWith (status : Nat) (body : String)
  | refetch (url : String)
  | nothing
deriving DecidableEq

/-- proxyReqOnError is the error listener of server.js lines 207 to
211: answer 502 Gateway Error unless the code is ECONNRESET or headers
were already sent; it never starts a new upstream request. -/
def proxyReqOnError (code : String) (headersSent : Bool) : HandlerAction :=
  if !(code == "ECONNRESET") && !headersSent then
    HandlerAction.respondWith 502 "Gateway Error"
  else HandlerAction.nothing

/-- proxyReqEventAction maps each event of the upstream request to the
action of the listener server.js registers for it: error goes to
proxyReqOnError, the socket event only disables Nagle buffering on the
socket (no client-visible action), and the timeout event has no
registered listener at all, node then takes no action by default, so
the request keeps hanging and nothing is sent to the client. -/
def proxyReqEventAction (e : ProxyEvent) (headersSent : Bool) : HandlerAction :=
  match e with
  | ProxyEvent.errorEvent code => proxyReqOnError code headersSent
  | ProxyEvent.socketEvent => HandlerAction.nothing
  | ProxyEvent.timeoutEvent => HandlerAction.nothing

/-- StreamEvent lists the events the piped upstream body stream
(proxyRes) can emit while the binary branch streams it to the client. -/
inductive StreamEvent where
  | dataChunk (chunk : String)
  | endEvent
  | errorEvent (code : String)
deriving DecidableEq

/-- PipeAction is the effect a stream event has on the client
response: write a chunk, end the response, or nothing. -/
inductive PipeAction where
  | writeChunk (chunk : String)
  | endResponse
  | nothing
deriving DecidableEq

/-- proxyResPipeOnEvent models the reactions installed on the upstream
body stream by proxyRes.pipe(res) at server.js line 197, per the
documented node stream.pipe contract: a data chunk is written to the
destination, the source end event ends the destination (the end option
defaults to true), and a source error does NOT end or destroy the
destination - pipe only detaches it - and server.js registers no error
listener on proxyRes that would end it, so a mid-stream upstream
failure leaves the client response open. -/
def proxyResPipeOnEvent : StreamEvent → PipeAction
  | StreamEvent.dataChunk c => PipeAction.writeChunk c
  | StreamEvent.endEvent => PipeAction.endResponse
  | StreamEvent.errorEvent _ => PipeAction.nothing

/-! Independent line decomposition used to state the manifest claims:
a text is the interleaving of terminator-free lines and single
terminator characters. This decomposition is defined separately from
the rewriter so that theorems relating the two have content. -/

/-- noTerm decides that a character list contains no line terminator. -/
def noTerm (l : List Char) : Bool := l.all (fun c => !(isLineTerminator c))

/-- linesAndSeps splits a text into its lines paired with the
terminator that ends each of them (none for the final line). -/
def linesAndSeps : List Char → List (List Char × Option Char)
  | [] => [([], none)]
  | c :: t =>
    if isLineTerminator c then ([], some c) :: linesAndSeps t
    else
      match linesAndSeps t with
      | [] => [([c], none)]
      | p :: rest => (c :: p.1, p.2) :: rest

/-- joinLS reassembles a text from lines and separators. -/
def joinLS : List (List Char × Option Char) → List Char
  | [] => []
  | p :: rest => p.1 ++ (match p.2 with | some c => [c] | none => []) ++ joinLS rest

/-- LSshape characterizes the well-formed outputs of linesAndSeps:
a nonempty list of terminator-free lines where every entry but the
last carries a terminator separator and the last carries none. -/
inductive LSshape : List (List Char × Option Char) → Prop
  | last (l : List Char) (hl : noTerm l = true) : LSshape [(l, none)]
  | more (l : List Char) (c : Char) (rest : List (List Char × Option Char))
      (hl : noTerm l = true) (hc : isLineTerminator c = true)
      (h : LSshape rest) : LSshape ((l, some c) :: rest)

theorem noTerm_cons (c : Char) (t : List Char) :
    noTerm (c :: t) = (!(isLineTerminator c) && noTerm t) := by
  simp [noTerm]

theorem linesAndSeps_noTerm (l : List Char) (h : noTerm l = true) :
    linesAndSeps l = [(l, none)] := by
  induction l with
  | nil => rfl
  | cons c t ih =>
    rw [noTerm_cons, Bool.and_eq_true, Bool.not_eq_true'] at h
    simp [linesAndSeps, h.1, ih h.2]

theorem linesAndSeps_append (l : List Char) (hl : noTerm l = true)
    (c : Char) (hc : isLineTerminator c = true) (t : List Char) :
    linesAndSeps (l ++ c :: t) = (l, some c) :: linesAndSeps t := by
  induction l with
  | nil => simp [linesAndSeps, hc]
  | cons a b ih =>
    rw [noTerm_cons, Bool.and_eq_true, Bool.not_eq_true'] at hl
    rw [List.cons_append]
    simp [linesAndSeps, hl.1, ih hl.2]

theorem linesAndSeps_ne_nil (cs : List Char) : linesAndSeps cs ≠ [] := by
  induction cs with
  | nil => simp [linesAndSeps]
  | cons c t ih =>
    by_cases hc : isLineTerminator c = true
    · simp [linesAndSeps, hc]
    · have hc' : isLineTerminator c = false := by simpa using hc
      rcases hm : linesAndSeps t with _ | ⟨p, rest⟩
      · exact absurd hm ih
      · simp [linesAndSeps, hc', hm]

theorem linesAndSeps_shape (cs : List Char) : LSshape (linesAndSeps cs) := by
  induction cs with
  | nil => exact LSshape.last [] rfl
  | cons c t ih =>
    by_cases hc : isLineTerminator c = true
    · have hg : linesAndSeps (c :: t) = ([], some c) :: linesAndSeps t := by
        simp [linesAndSeps, hc]
      rw [hg]
      exact LSshape.more [] c _ rfl hc ih
    · have hc' : isLineTerminator c = false := by simpa using hc
      rcases hm : linesAndSeps t with _ | ⟨⟨l, s⟩, rest⟩
      · exact absurd hm (linesAndSeps_ne_nil t)
      · have hg : linesAndSeps (c :: t) = (c :: l, s) :: rest := by
          simp [linesAndSeps, hc', hm]
        rw [hg]
        rw [hm] at ih
        cases ih with
        | last _ hl =>
          exact LSshape.last (c :: l) (by rw [noTerm_cons, hc', hl]; rfl)
        | more _ _ _ hl hd h =>
          exact LSshape.more (c :: l) _ _
            (by rw [noTerm_cons, hc', hl]; rfl) hd h

theorem joinLS_linesAndSeps (m : List (List Char × Option Char)) (h : LSshape m) :
    linesAndSeps (joinLS m) = m := by
  induction h with
  | last l hl => simpa [joinLS] using linesAndSeps_noTerm l hl
  | more l c rest hl hc _ ih =>
    simp only [joinLS, List.append_assoc, List.singleton_append]
    rw [linesAndSeps_append l hl c hc, ih]

theorem LSshape_map (m : List (List Char × Option Char)) (h : LSshape m)
    (f : List Char → List Char) (hf : ∀ l, noTerm l = true → noTerm (f l) = true) :
    LSshape (m.map (fun p => (f p.1, p.2))) := by
  induction h with
  | last l hl => exact LSshape.last (f l) (hf l hl)
  | more l c rest hl hc _ ih => exact LSshape.more (f l) c _ (hf l hl) hc ih

theorem rewriteScan_lines (baseUrl : String) (cs cur : List Char)
    (hcur : noTerm cur = true) :
    rewriteScan baseUrl cur cs =
      joinLS ((linesAndSeps (cur ++ cs)).map
        (fun p => (processLine baseUrl p.1, p.2))) := by
  induction cs generalizing cur with
  | nil =>
    rw [List.append_nil, linesAndSeps_noTerm cur hcur]
    simp [rewriteScan, joinLS]
  | cons c t ih =>
    by_cases hc : isLineTerminator c = true
    · rw [linesAndSeps_append cur hcur c hc t]
      simp only [rewriteScan, hc, if_true, List.map_cons, joinLS,
        List.append_assoc, List.singleton_append]
      rw [ih [] rfl]
      simp [joinLS]
    · have h1 : rewriteScan baseUrl cur (c :: t) = rewriteScan baseUrl (cur ++ [c]) t := by
        simp [rewriteScan, hc]
      have h2 : noTerm (cur ++ [c]) = true := by
        simp [noTerm] at hcur ⊢
        exact ⟨hcur, by simpa using hc⟩
      rw [h1, ih (cur ++ [c]) h2, List.append_assoc, List.singleton_append]

/-- rewriteManifest_lines relates the regex-driven rewriter to the
independent line decomposition: the rewritten text is exactly the
original split into lines, each matched line replaced by the rewrite
callback, reassembled with the original separators. -/
theorem rewriteManifest_lines (text baseUrl : String) :
    rewriteManifest text baseUrl =
      String.mk (joinLS ((linesAndSeps text.data).map
        (fun p => (processLine baseUrl p.1, p.2)))) := by
  unfold rewriteManifest
  rw [rewriteScan_lines baseUrl text.data [] rfl]
  rfl

theorem hexDigitChar_notTerm : ∀ n < 16, isLineTerminator (hexDigitChar n) = false := by
  decide

theorem char_toNat_lt (c : Char) : c.toNat < 1114112 := by
  have hv := c.valid
  rcases hv with h | h
  · exact Nat.lt_trans h (by norm_num)
  · exact h.2

theorem utf8Bytes_lt (c : Char) : ∀ b ∈ utf8Bytes c, b < 256 := by
  intro b hb
  have hc : c.toNat < 1114112 := char_toNat_lt c
  unfold utf8Bytes at hb
  split at hb
  · simp only [List.mem_singleton] at hb
    omega
  · split at hb
    · simp only [List.mem_cons, List.mem_singleton, List.not_mem_nil, or_false] at hb
      have h64 : c.toNat / 64 < 32 :=
        (Nat.div_lt_iff_lt_mul (by norm_num)).mpr (by omega)
      have hm : c.toNat % 64 < 64 := Nat.mod_lt _ (by norm_num)
      rcases hb with hb | hb <;> omega
    · split at hb
      · simp only [List.mem_cons, List.mem_singleton, List.not_mem_nil, or_false] at hb
        have h4096 : c.toNat / 4096 < 16 :=
          (Nat.div_lt_iff_lt_mul (by norm_num)).mpr (by omega)
        have hm1 : c.toNat / 64 % 64 < 64 := Nat.mod_lt _ (by norm_num)
        have hm : c.toNat % 64 < 64 := Nat.mod_lt _ (by norm_num)
        rcases hb with hb | hb | hb <;> omega
      · simp only [List.mem_cons, List.mem_singleton, List.not_mem_nil, or_false] at hb
        have h218 : c.toNat / 262144 < 5 :=
          (Nat.div_lt_iff_lt_mul (by norm_num)).mpr (by omega)
        have hm1 : c.toNat / 4096 % 64 < 64 := Nat.mod_lt _ (by norm_num)
        have hm2 : c.toNat / 64 % 64 < 64 := Nat.mod_lt _ (by norm_num)
        have hm : c.toNat % 64 < 64 := Nat.mod_lt _ (by norm_num)
        rcases hb with hb | hb | hb | hb <;> omega

theorem term_not_unreserved (c : Char) (ht : isLineTerminator c = true) :
    isUnreservedURIChar c = false := by
  have h1 : c = '\n' ∨ c = '\r' ∨ c = Char.ofNat 8232 ∨ c = Char.ofNat 8233 := by
    simp only [isLineTerminator, Bool.or_eq_true, beq_iff_eq] at ht
    tauto
  rcases h1 with h | h | h | h <;> subst h <;> decide

theorem notTerm_of_unreserved (c : Char) (h : isUnreservedURIChar c = true) :
    isLineTerminator c = false := by
  by_contra hne
  have ht : isLineTerminator c = true := by simpa using hne
  rw [term_not_unreserved c ht] at h
  exact Bool.false_ne_true h

theorem noTerm_percentEncodeChar (c : Char) : noTerm (percentEncodeChar c) = true := by
  unfold percentEncodeChar
  have key : ∀ bs : List Nat, (∀ b ∈ bs, b < 256) →
      noTerm (bs.foldr
        (fun b acc => '%' :: hexDigitChar (b / 16) :: hexDigitChar (b % 16) :: acc) []) = true := by
    intro bs
    induction bs with
    | nil => intro _; rfl
    | cons b t ih =>
      intro hall
      have hb : b < 256 := hall b (List.mem_cons_self b t)
      have h1 : b / 16 < 16 := (Nat.div_lt_iff_lt_mul (by norm_num)).mpr (by omega)
      have h2 : b % 16 < 16 := Nat.mod_lt _ (by norm_num)
      simp only [List.foldr_cons, noTerm, List.all_cons, Bool.and_eq_true, Bool.not_eq_true']
      refine ⟨by decide, hexDigitChar_notTerm _ h1, hexDigitChar_notTerm _ h2, ?_⟩
      have := ih (fun x hx => hall x (List.mem_cons_of_mem b hx))
      simpa [noTerm] using this
  exact key (utf8Bytes c) (utf8Bytes_lt c)

theorem noTerm_encodeURIComponent (s : String) : noTerm (encodeURIComponent s).data = true := by
  unfold encodeURIComponent
  induction s.data with
  | nil => rfl
  | cons c t ih =>
    simp only [List.foldr_cons]
    by_cases h : isUnreservedURIChar c = true
    · rw [if_pos h]
      rw [noTerm_cons, notTerm_of_unreserved c h]
      simpa using ih
    · rw [if_neg h]
      have h1 := noTerm_percentEncodeChar c
      simp only [noTerm, List.all_append, Bool.and_eq_true] at h1 ⊢
      exact ⟨h1, by simpa [noTerm] using ih⟩

theorem noTerm_append (a b : List Char) :
    noTerm (a ++ b) = (noTerm a && noTerm b) := by
  simp [noTerm]

theorem noTerm_rewriteLine (baseUrl s : String) :
    noTerm (rewriteLine baseUrl s).data = true := by
  unfold rewriteLine
  rw [String.data_append, noTerm_append, Bool.and_eq_true]
  exact ⟨by decide, noTerm_encodeURIComponent _⟩

theorem noTerm_processLine (baseUrl : String) (l : List Char) (hl : noTerm l = true) :
    noTerm (processLine baseUrl l) = true := by
  unfold processLine
  by_cases h : lineGuard l = true
  · rw [if_pos h]; exact noTerm_rewriteLine baseUrl (String.mk l)
  · rw [if_neg h]; exact hl

/-- linesAndSeps_rewriteManifest reads the rewritten manifest back
through the independent line decomposition: line for line, separator
for separator, the output is the image of the input under the
per-line replacement. -/
theorem linesAndSeps_rewriteManifest (text baseUrl : String) :
    linesAndSeps (rewriteManifest text baseUrl).data =
      (linesAndSeps text.data).map (fun p => (processLine baseUrl p.1, p.2)) := by
  rw [rewriteManifest_lines]
  exact joinLS_linesAndSeps _
    (LSshape_map _ (linesAndSeps_shape text.data) (processLine baseUrl)
      (noTerm_processLine baseUrl))

/-- doRequest_eq shows that doRequest satisfies the recursion of
server.js lines 109 to 147 exactly: the fuel in doRequestFuel is
bookkeeping that the hop-limit guard keeps consistent. -/
theorem doRequest_eq (up : String → UpstreamResponse) (url : String) (rc : Nat) :
    doRequest up url rc =
      if rc > 5 then tooManyResp
      else
        match parseAbsoluteURL url with
        | none => invalidResp
        | some _ =>
          if redirectStatuses.contains (up url).statusCode then
            match headerGet (up url).headers "location" with
            | some loc =>
              if loc == "" then respond url (up url)
              else
                doRequest up
                  (if jsStartsWith loc "http" then loc else (resolveURL loc url).getD loc)
                  (rc + 1)
            | none => respond url (up url)
          else respond url (up url) := by
  by_cases h : rc > 5
  · have h0 : 6 - rc = 0 := by omega
    rw [if_pos h]
    unfold doRequest
    rw [h0]
    rfl
  · have h1 : 6 - rc = (5 - rc) + 1 := by omega
    have h2 : 6 - (rc + 1) = 5 - rc := by omega
    rw [if_neg h]
    unfold doRequest
    rw [h1, h2]
    simp only [doRequestFuel]
    rw [if_neg h]

theorem doRequest_terminal (up : String → UpstreamResponse) (url : String) (rc : Nat)
    (hp : (parseAbsoluteURL url).isSome = true)
    (hnr : redirectStatuses.contains (up url).statusCode = false ∨
      headerGet (up url).headers "location" = none)
    (hrc : rc ≤ 5) :
    doRequest up url rc = respond url (up url) := by
  rw [doRequest_eq, if_neg (by omega)]
  obtain ⟨u, hu⟩ := Option.isSome_iff_exists.mp hp
  rw [hu]
  rcases hnr with hnr | hnr
  · rw [hnr]
    simp
  · rw [hnr]
    cases hb : redirectStatuses.contains (up url).statusCode <;> simp

theorem respond_noMagic (url : String) (P : UpstreamResponse)
    (hm : isM3U8 ((headerGet P.headers "content-type").getD "") url = true)
    (hmagic : jsStartsWith (jsTrim P.body) "#EXTM3U" = false) :
    respond url P =
      ⟨if P.statusCode == 0 then 200 else P.statusCode, respHeaders P, P.body⟩ := by
  simp [respond, hm, hmagic]

theorem respond_binary (url : String) (P : UpstreamResponse)
    (hm : isM3U8 ((headerGet P.headers "content-type").getD "") url = false) :
    respond url P =
      ⟨if P.statusCode == 0 then 200 else P.statusCode, respHeaders P, P.body⟩ := by
  simp [respond, hm]

theorem headerGet_setHeader_self (hdrs : List (String × String)) (k v : String) :
    headerGet (setHeader hdrs k v) k = some v := by
  simp [setHeader, headerGet, List.lookup]

theorem headerGet_setHeader_other (hdrs : List (String × String)) (k v k2 : String)
    (hne : k2 ≠ k) :
    headerGet (setHeader hdrs k v) k2 = headerGet hdrs k2 := by
  simp [setHeader, headerGet, List.lookup, beq_eq_false_iff_ne.mpr hne]

theorem headerGet_fwdStep_other (P : UpstreamResponse)
    (acc : List (String × String)) (h k : String) (hne : k ≠ h) :
    headerGet (fwdStep P acc h) k = headerGet acc k := by
  unfold fwdStep
  cases hv : headerGet P.headers h with
  | none => rfl
  | some v =>
    by_cases hvv : (v == "") = true
    · simp [hvv]
    · have hvv' : (v == "") = false := by simpa using hvv
      simp [hvv', headerGet_setHeader_other acc h v k hne]

theorem respHeaders_contentType (P : UpstreamResponse) (ct : String)
    (hct : headerGet P.headers "content-type" = some ct) (hne : ct ≠ "") :
    headerGet (respHeaders P) "content-type" = some ct := by
  unfold respHeaders forwardHeaderList
  simp only [List.foldl_cons, List.foldl_nil]
  rw [headerGet_setHeader_other _ _ _ _ (by decide),
    headerGet_setHeader_other _ _ _ _ (by decide),
    headerGet_fwdStep_other _ _ _ _ (by decide),
    headerGet_fwdStep_other _ _ _ _ (by decide),
    headerGet_fwdStep_other _ _ _ _ (by decide),
    headerGet_fwdStep_other _ _ _ _ (by decide),
    headerGet_fwdStep_other _ _ _ _ (by decide)]
  unfold fwdStep
  rw [hct]
  simp [beq_eq_false_iff_ne.mpr hne, headerGet_setHeader_self]

/-- C2 (amended): the classifier fires on the URL containing .m3u8 as
a substring (not only as a suffix); for an upstream response with
content type video/mp2t and a URL that does not contain .m3u8
anywhere, the proxy streams the body to the client unchanged, even a
body that itself looks like a manifest. -/
theorem mp2t_passthrough (up : String → UpstreamResponse) (url : String)
    (hp : (parseAbsoluteURL url).isSome = true)
    (hnr : redirectStatuses.contains (up url).statusCode = false)
    (hct : headerGet (up url).headers "content-type" = some "video/mp2t")
    (hurl : strIncludes url ".m3u8" = false) :
    (doRequest up url 0).body = (up url).body := by
  rw [doRequest_terminal up url 0 hp (Or.inl hnr) (by omega)]
  have hm : isM3U8 ((headerGet (up url).headers "content-type").getD "") url = false := by
    rw [hct]
    show isM3U8 "video/mp2t" url = false
    unfold isM3U8
    rw [hurl]
    decide
  rw [respond_binary url (up url) hm]

/-- C2 witness: a mp2t response whose body even carries the manifest
magic marker passes through unchanged when the URL contains no .m3u8. -/
theorem mp2t_passthrough_w :
    strIncludes "http://h/plain.ts" ".m3u8" = false ∧
    (doRequest (fun _ => ⟨200, [("content-type", "video/mp2t")], "#EXTM3U\nseg.ts\n"⟩)
        "http://h/plain.ts" 0).body = "#EXTM3U\nseg.ts\n" :=
  ⟨by decide,
   mp2t_passthrough (fun _ => ⟨200, [("content-type", "video/mp2t")], "#EXTM3U\nseg.ts\n"⟩)
     "http://h/plain.ts" (by decide) (by decide) (by decide) (by decide)⟩

/-- C2 counterexample: a URL that does not end in .m3u8 but contains
it as a substring is classified as a manifest and its mp2t body is
rewritten, not streamed byte-for-byte, refuting the claim as stated. -/
theorem isM3U8_substring_cex :
    jsEndsWith "http://h/a.m3u8.ts" ".m3u8" = false ∧
    isM3U8 "video/mp2t" "http://h/a.m3u8.ts" = true ∧
    (doRequest (fun _ => ⟨200, [("content-type", "video/mp2t")], "#EXTM3U\nseg.ts\n"⟩)
        "http://h/a.m3u8.ts" 0).body ≠ "#EXTM3U\nseg.ts\n" := by
  decide

/-- C3 (amended): when the manifest signal fires but the buffered body
does not start with the magic marker, the proxy emits the buffered
bytes unmodified and never passes them through the rewriter, with the
upstream content type (present and non-empty) forwarded unchanged: no
corrected binary content type is set. -/
theorem noMagic_passthrough (up : String → UpstreamResponse) (url ct : String)
    (hp : (parseAbsoluteURL url).isSome = true)
    (hnr : redirectStatuses.contains (up url).statusCode = false)
    (hct : headerGet (up url).headers "content-type" = some ct)
    (hcne : ct ≠ "")
    (hm : isM3U8 ct url = true)
    (hmagic : jsStartsWith (jsTrim (up url).body) "#EXTM3U" = false) :
    (doRequest up url 0).body = (up url).body ∧
    headerGet (doRequest up url 0).headers "content-type" = some ct := by
  have hm' : isM3U8 ((headerGet (up url).headers "content-type").getD "") url = true := by
    rw [hct]
    exact hm
  rw [doRequest_terminal up url 0 hp (Or.inl hnr) (by omega),
    respond_noMagic url (up url) hm' hmagic]
  exact ⟨rfl, respHeaders_contentType (up url) ct hct hcne⟩

/-- C3 witness: a garbage body labeled as a manifest passes through. -/
theorem noMagic_passthrough_w :
    jsStartsWith (jsTrim "GARBAGE") "#EXTM3U" = false ∧
    ((doRequest (fun _ => ⟨200, [("content-type", "application/vnd.apple.mpegurl")],
        "GARBAGE"⟩) "http://h/x" 0).body = "GARBAGE" ∧
     headerGet (doRequest (fun _ => ⟨200, [("content-type", "application/vnd.apple.mpegurl")],
        "GARBAGE"⟩) "http://h/x" 0).headers "content-type" =
       some "application/vnd.apple.mpegurl") :=
  ⟨by decide,
   noMagic_passthrough
     (fun _ => ⟨200, [("content-type", "application/vnd.apple.mpegurl")], "GARBAGE"⟩)
     "http://h/x" "application/vnd.apple.mpegurl"
     (by decide) (by decide) (by decide) (by decide) (by decide) (by decide)⟩

/-- C3 counterexample: the fallback keeps the upstream manifest-typed
content type on the unmodified bytes; no corrected binary content type
is ever set, refuting the claim as stated. -/
theorem noMagic_contentType_cex :
    headerGet (doRequest (fun _ => ⟨200,
        [("content-type", "application/vnd.apple.mpegurl")], "GARBAGE"⟩)
        "http://h/x" 0).headers "content-type" = some "application/vnd.apple.mpegurl" ∧
    strIncludes "application/vnd.apple.mpegurl" "mpegurl" = true := by
  decide

/-- C7 (amended): on an upstream failure after response headers are
sent (a mid-stream drop), the proxy never retries the upstream fetch -
the request error listener takes no action once headers are sent and
no registered handler ever starts a new fetch - but it does not
terminate the client response stream either: the pipe reaction to a
source error neither writes nor ends the destination, so teardown is
left to the sockets outside the handler. -/
theorem midStreamFailure_noRetry_noTerminate :
    (∀ code : String,
      proxyReqEventAction (ProxyEvent.errorEvent code) true = HandlerAction.nothing) ∧
    (∀ (e : ProxyEvent) (hs : Bool) (url : String),
      proxyReqEventAction e hs ≠ HandlerAction.refetch url) ∧
    (∀ code : String,
      proxyResPipeOnEvent (StreamEvent.errorEvent code) = PipeAction.nothing) := by
  refine ⟨?_, ?_, ?_⟩
  · intro code
    simp [proxyReqEventAction, proxyReqOnError]
  · intro e hs url
    cases e with
    | errorEvent code =>
      simp only [proxyReqEventAction, proxyReqOnError]
      split <;> simp
    | socketEvent => simp [proxyReqEventAction]
    | timeoutEvent => simp [proxyReqEventAction]
  · intro code
    rfl

/-- C7 counterexample: a connection reset after headers are sent
produces no terminating action anywhere: the request error listener
does nothing and the pipe reaction to the source error is not to end
the client response, refuting the claim that the proxy terminates the
client response stream on a mid-stream drop. -/
theorem midStreamFailure_notTerminated_cex :
    proxyReqEventAction (ProxyEvent.errorEvent "ECONNRESET") true =
      HandlerAction.nothing ∧
    proxyResPipeOnEvent (StreamEvent.errorEvent "ECONNRESET") = PipeAction.nothing ∧
    PipeAction.nothing ≠ PipeAction.endResponse := by
  decide

/-- C8 (amended): an upstream request error event with a code other
than ECONNRESET arriving before response headers are sent is answered
with the 502 Gateway Error response, and no event handler of the
upstream request ever starts a new upstream fetch; an elapsed socket
timeout, however, raises only the timeout event, for which no listener
is registered, so it produces no client response at all. -/
theorem connectError_502_noRetry :
    (∀ code : String, code ≠ "ECONNRESET" →
      proxyReqEventAction (ProxyEvent.errorEvent code) false =
        HandlerAction.respondWith 502 "Gateway Error") ∧
    (∀ (e : ProxyEvent) (hs : Bool) (url : String),
      proxyReqEventAction e hs ≠ HandlerAction.refetch url) := by
  constructor
  · intro code hcode
    have hb : (code == "ECONNRESET") = false := beq_eq_false_iff_ne.mpr hcode
    simp [proxyReqEventAction, proxyReqOnError, hb]
  · intro e hs url
    cases e with
    | errorEvent code =>
      simp only [proxyReqEventAction, proxyReqOnError]
      split <;> simp
    | socketEvent => simp [proxyReqEventAction]
    | timeoutEvent => simp [proxyReqEventAction]

/-- C8 witness: a refused connection before headers yields the 502. -/
theorem connectError_502_noRetry_w :
    proxyReqEventAction (ProxyEvent.errorEvent "ECONNREFUSED") false =
      HandlerAction.respondWith 502 "Gateway Error" :=
  connectError_502_noRetry.1 "ECONNREFUSED" (by decide)

/-- C8 counterexample: an elapsed connect or headers timeout raises
the socket timeout event, which has no registered listener, so the
client receives no 502-class response at all, refuting the claim as
stated. -/
theorem headersTimeout_noResponse_cex :
    proxyReqEventAction ProxyEvent.timeoutEvent false = HandlerAction.nothing ∧
    proxyReqEventAction ProxyEvent.timeoutEvent false ≠
      HandlerAction.respondWith 502 "Gateway Error" := by
  decide

/-- C10: every line whose first character is whitespace is excluded by
the line-matching pattern of the rewriter and appears in the rewritten
manifest byte-identical, at the same line index and with the same
separator, never replaced by a relay URL. -/
theorem whitespace_line_untouched (text baseUrl : String) (i : Nat)
    (l : List Char) (s : Option Char) (c : Char)
    (hline : (linesAndSeps text.data)[i]? = some (l, s))
    (hhead : l.head? = some c)
    (hws : jsIsWhitespace c = true) :
    (linesAndSeps (rewriteManifest text baseUrl).data)[i]? = some (l, s) := by
  rw [linesAndSeps_rewriteManifest, List.getElem?_map, hline]
  cases l with
  | nil => simp at hhead
  | cons a t =>
    have ha : a = c := by simpa using hhead
    subst ha
    have hguard : lineGuard (a :: t) = false := by
      simp [lineGuard, hws]
    simp [processLine, hguard]

/-- C10 witness: the indented segment line stays untouched at its line
index in a rewritten manifest. -/
theorem whitespace_line_untouched_w :
    (linesAndSeps ("#EXTM3U\n seg.ts\n" : String).data)[1]? =
      some ((" seg.ts" : String).data, some '\n') ∧
    (linesAndSeps (rewriteManifest "#EXTM3U\n seg.ts\n" "http://h/").data)[1]? =
      some ((" seg.ts" : String).data, some '\n') :=
  ⟨by decide,
   whitespace_line_untouched "#EXTM3U\n seg.ts\n" "http://h/" 1
     (" seg.ts" : String).data (some '\n') ' ' (by decide) (by decide) (by decide)⟩

end Streamflix
